import Mathlib

/-!
Verification of the xds-relay response cache (internal/app/cache/cache.go) and of
the orchestrator delivery behaviour it supports.

The cache is a shallow embedding of the Go source:
* time instants are naturals, with 0 playing the role of the zero `time.Time`
  (the "never expires" value);
* the underlying `groupcache/lru` store is a list of key/value pairs whose head
  is the most recently used entry;
* downstream request handles (Go `*v2.DiscoveryRequest` pointers, compared by
  identity) are naturals, and an entry's request map (a Go set: `map[...]bool`)
  is a duplicate-free `List Nat`: map insertion is `List.insert` (a no-op when
  the handle is present), map deletion removes every occurrence of the handle;
* the `interface\x7b\x7d` values stored in the LRU are modelled by `CacheValue`, which
  allows non-`Resource` payloads so that the type-assertion failure branches of
  the Go code remain real branches;
* the `onEvict` callback is modelled by returning the list of `(key, value)`
  pairs it would have been invoked on, in invocation order;
* `Fetch` reads `time.Now()` twice (once per expiration check), so its embedding
  takes two time arguments `now1`, `now2`.
-/

deriving instance DecidableEq for Except

namespace XdsRelay

/-- Discovery response, reduced to the fields the relay core inspects:
the version-info string plus an opaque payload standing for the rest. -/
structure DiscoveryResponse where
  versionInfo : String
  payload : String
deriving DecidableEq, Repr

/-- Cache entry: most recent response (a nullable pointer in Go, hence `Option`),
the set of attached downstream request handles, and the expiration instant
(0 is the zero `time.Time`, i.e. never expires). -/
structure Resource where
  Resp : Option DiscoveryResponse
  Requests : List Nat
  ExpirationTime : Nat
deriving DecidableEq

/-- A value stored in the LRU. The Go LRU stores `interface\x7b\x7d`; `corrupt`
models any stored value that is not a `Resource`, so the cast-failure branches
of the source are representable. -/
inductive CacheValue where
  | res (r : Resource)
  | corrupt (tag : String)
deriving DecidableEq

/-- True exactly when the stored value is a `Resource`. -/
def CacheValue.isRes : CacheValue → Bool
  | .res _ => true
  | .corrupt _ => false

/-- Errors returned by cache operations. -/
inductive CacheErr where
  | notFound (key : String)
  | typeMismatch (key : String)
deriving DecidableEq

/-- True exactly for the type-mismatch (cast failure) error. -/
def CacheErr.isTypeMismatch : CacheErr → Bool
  | .typeMismatch _ => true
  | .notFound _ => false

/-- The groupcache/lru cache: `MaxEntries` (0 = unlimited) and the entry list,
head = most recently used, last = least recently used. -/
structure LRU where
  MaxEntries : Nat
  items : List (String × CacheValue)
deriving DecidableEq

namespace LRU

/-- Pure lookup of the value stored under a key (no recency side effect). -/
def lookup (c : LRU) (key : String) : Option CacheValue :=
  (c.items.find? (fun p => p.1 == key)).map (·.2)

/-- lru.Cache.Get: returns the value if present and moves the entry to the
front (most recently used). -/
def get (c : LRU) (key : String) : Option CacheValue × LRU :=
  match c.items.find? (fun p => p.1 == key) with
  | none => (none, c)
  | some kv => (some kv.2, { c with items := kv :: c.items.eraseP (fun p => p.1 == key) })

/-- lru.Cache.RemoveOldest: drops the least recently used entry and reports it
as evicted. -/
def removeOldest (c : LRU) : LRU × List (String × CacheValue) :=
  match c.items.getLast? with
  | none => (c, [])
  | some kv => ({ c with items := c.items.dropLast }, [kv])

/-- lru.Cache.Add: replace-and-move-to-front when the key exists, otherwise
push to the front and evict the oldest entry when over capacity. -/
def add (c : LRU) (key : String) (v : CacheValue) : LRU × List (String × CacheValue) :=
  match c.items.find? (fun p => p.1 == key) with
  | some _ => ({ c with items := (key, v) :: c.items.eraseP (fun p => p.1 == key) }, [])
  | none =>
    let c1 : LRU := { c with items := (key, v) :: c.items }
    if c.MaxEntries ≠ 0 ∧ c1.items.length > c.MaxEntries then c1.removeOldest else (c1, [])

/-- lru.Cache.Remove: deletes the entry if present and reports it as evicted
(the Go implementation invokes OnEvicted from Remove as well). -/
def remove (c : LRU) (key : String) : LRU × List (String × CacheValue) :=
  match c.items.find? (fun p => p.1 == key) with
  | none => (c, [])
  | some kv => ({ c with items := c.items.eraseP (fun p => p.1 == key) }, [kv])

end LRU

/-- The cache structure: the LRU store plus the configured TTL (in the same
abstract time unit as the `now` arguments; constructor-checked nonnegative,
so stored as `Nat`, 0 = expiration disabled). -/
structure cache where
  lru : LRU
  ttl : Nat
deriving DecidableEq

/-- NewCache: rejects a negative TTL, otherwise builds an empty cache. -/
def NewCache (maxEntries : Nat) (ttl : Int) : Except String cache :=
  if ttl < 0 then .error "ttl must be nonnegative"
  else .ok { lru := { MaxEntries := maxEntries, items := [] }, ttl := ttl.toNat }

/-- Resource.isExpired: the zero expiration time never expires; otherwise the
entry is expired when its deadline is strictly before the current time. -/
def Resource.isExpired (r : Resource) (currentTime : Nat) : Bool :=
  if r.ExpirationTime = 0 then false else decide (r.ExpirationTime < currentTime)

/-- cache.getExpirationTime: now + ttl when the TTL is positive, the zero
(never-expires) time otherwise. -/
def cache.getExpirationTime (c : cache) (currentTime : Nat) : Nat :=
  if c.ttl > 0 then currentTime + c.ttl else 0

/-- cache.Fetch. Result conventions: `.error e` is Go's `(nil, err)`,
`.ok none` is Go's `(nil, nil)` (entry lazily evicted on this call), and
`.ok (some r)` is Go's `(&r, nil)`. The second and third components are the
cache after the call and the `onEvict` invocations it performed. -/
def cache.Fetch (c : cache) (key : String) (now1 now2 : Nat) :
    Except CacheErr (Option Resource) × cache × List (String × CacheValue) :=
  match c.lru.get key with
  | (none, lru1) => (.error (.notFound key), { c with lru := lru1 }, [])
  | (some (.corrupt _), lru1) => (.error (.typeMismatch key), { c with lru := lru1 }, [])
  | (some (.res resource), lru1) =>
    if resource.isExpired now1 then
      -- double-check under the exclusive lock
      match lru1.get key with
      | (none, lru2) => (.ok none, { c with lru := lru2 }, [])
      | (some (.corrupt _), lru2) => (.error (.typeMismatch key), { c with lru := lru2 }, [])
      | (some (.res resource2), lru2) =>
        if resource2.isExpired now2 then
          match lru2.remove key with
          | (lru3, ev) => (.ok none, { c with lru := lru3 }, ev)
        else (.ok (some resource2), { c with lru := lru2 }, [])
    else (.ok (some resource), { c with lru := lru1 }, [])

/-- cache.SetResponse: create the entry (empty request set) when absent,
otherwise replace the response and reset the deadline; returns the entry's
request set (Go returns the nil map on creation, i.e. the empty set). -/
def cache.SetResponse (c : cache) (key : String) (response : DiscoveryResponse) (now : Nat) :
    Except CacheErr (List Nat) × cache × List (String × CacheValue) :=
  match c.lru.get key with
  | (none, lru1) =>
    let resource : Resource :=
      { Resp := some response, ExpirationTime := c.getExpirationTime now, Requests := [] }
    match lru1.add key (.res resource) with
    | (lru2, ev) => (.ok [], { c with lru := lru2 }, ev)
  | (some (.corrupt _), lru1) => (.error (.typeMismatch key), { c with lru := lru1 }, [])
  | (some (.res resource), lru1) =>
    let resource2 : Resource :=
      { resource with Resp := some response, ExpirationTime := c.getExpirationTime now }
    match lru1.add key (.res resource2) with
    | (lru2, ev) => (.ok resource2.Requests, { c with lru := lru2 }, ev)

/-- cache.AddRequest: create the entry (no response, fresh deadline) when
absent, otherwise insert the handle into the entry's request set. -/
def cache.AddRequest (c : cache) (key : String) (req : Nat) (now : Nat) :
    Except CacheErr Unit × cache × List (String × CacheValue) :=
  match c.lru.get key with
  | (none, lru1) =>
    let resource : Resource :=
      { Resp := none, Requests := [req], ExpirationTime := c.getExpirationTime now }
    match lru1.add key (.res resource) with
    | (lru2, ev) => (.ok (), { c with lru := lru2 }, ev)
  | (some (.corrupt _), lru1) => (.error (.typeMismatch key), { c with lru := lru1 }, [])
  | (some (.res resource), lru1) =>
    let resource2 : Resource := { resource with Requests := resource.Requests.insert req }
    match lru1.add key (.res resource2) with
    | (lru2, ev) => (.ok (), { c with lru := lru2 }, ev)

/-- cache.DeleteRequest: remove the handle from the entry's request set;
missing key and missing handle are both no-ops that return no error. -/
def cache.DeleteRequest (c : cache) (key : String) (req : Nat) :
    Except CacheErr Unit × cache × List (String × CacheValue) :=
  match c.lru.get key with
  | (none, lru1) => (.ok (), { c with lru := lru1 }, [])
  | (some (.corrupt _), lru1) => (.error (.typeMismatch key), { c with lru := lru1 }, [])
  | (some (.res resource), lru1) =>
    let resource2 : Resource :=
      { resource with Requests := resource.Requests.filter (fun x => !(x == req)) }
    match lru1.add key (.res resource2) with
    | (lru2, ev) => (.ok (), { c with lru := lru2 }, ev)

/-- The zero Resource value (Go `Resource\x7b\x7d`), returned by FetchReadOnly when
the fetched pointer is nil. -/
def Resource.zero : Resource := { Resp := none, Requests := [], ExpirationTime := 0 }

/-- cache.FetchReadOnly: delegates to Fetch and dereferences, substituting the
zero Resource when Fetch produced no resource pointer. -/
def cache.FetchReadOnly (c : cache) (key : String) (now1 now2 : Nat) :
    (Resource × Option CacheErr) × cache × List (String × CacheValue) :=
  match c.Fetch key now1 now2 with
  | (.error e, c1, ev) => ((Resource.zero, some e), c1, ev)
  | (.ok none, c1, ev) => ((Resource.zero, none), c1, ev)
  | (.ok (some r), c1, ev) => ((r, none), c1, ev)

example :
    (cache.Fetch { lru := { MaxEntries := 1, items := [] }, ttl := 60 } "key_A" 0 0).1 =
      .error (.notFound "key_A") := by decide

/-- One cache API call, with the times at which it reads the clock. -/
inductive CacheOp where
  | fetch (key : String) (now1 now2 : Nat)
  | setResponse (key : String) (response : DiscoveryResponse) (now : Nat)
  | addRequest (key : String) (req : Nat) (now : Nat)
  | deleteRequest (key : String) (req : Nat)

/-- The error produced by a call, if any, as a (0- or 1-element) list. -/
def errList {α : Type} : Except CacheErr α → List CacheErr
  | .error e => [e]
  | .ok _ => []

/-- Execute one cache API call, collecting its error and its evictions. -/
def cache.step (c : cache) : CacheOp → cache × List CacheErr × List (String × CacheValue)
  | .fetch key n1 n2 =>
    match c.Fetch key n1 n2 with
    | (r, c1, ev) => (c1, errList r, ev)
  | .setResponse key response now =>
    match c.SetResponse key response now with
    | (r, c1, ev) => (c1, errList r, ev)
  | .addRequest key req now =>
    match c.AddRequest key req now with
    | (r, c1, ev) => (c1, errList r, ev)
  | .deleteRequest key req =>
    match c.DeleteRequest key req with
    | (r, c1, ev) => (c1, errList r, ev)

/-- Execute a sequence of cache API calls, concatenating errors and evictions. -/
def cache.run (c : cache) : List CacheOp → cache × List CacheErr × List (String × CacheValue)
  | [] => (c, [], [])
  | op :: ops =>
    match c.step op with
    | (c1, errs1, ev1) =>
      match c1.run ops with
      | (c2, errs2, ev2) => (c2, errs1 ++ errs2, ev1 ++ ev2)

/-- A cache state is well formed when every stored value is a Resource. -/
def cache.wellFormed (c : cache) : Prop :=
  ∀ kv ∈ c.lru.items, kv.2.isRes = true

/-!
Orchestrator model.

Modelled from the spec: the orchestrator implementation (internal/app/orchestrator)
is not under src/, only its tests are; the model below follows the spec's §4.4
create-watch path and fan-out task verbatim:
* CreateWatch registers a fresh single-capacity downstream channel, adds the
  request handle to the key's cache entry, and, when the cached entry holds a
  response whose version differs from the request's, delivers that response
  immediately;
* on each upstream response the fan-out calls SetResponse, then for each handle
  in the returned set delivers the response to its downstream channel when that
  channel is registered and empty, and then removes the handle from the cache's
  request set (DeleteRequest);
* the consumer read empties the channel; cancellation removes the channel and
  the handle's cache registration.
Request handles are allocated from a counter, matching the pointer identity of
fresh Go request structs. Deliveries are logged, tagged by path (cached vs
fan-out), so that delivery counts per watch are observable.
-/
structure orchestrator where
  cache : cache
  channels : List (Nat × String × Option DiscoveryResponse)
  nextHandle : Nat
  cachedDeliveries : List (Nat × DiscoveryResponse)
  fanoutDeliveries : List (Nat × DiscoveryResponse)
deriving DecidableEq

/-- Events driving the orchestrator model. -/
inductive OrchEvent where
  | createWatch (key : String) (versionInfo : String)
  | upstreamResponse (key : String) (response : DiscoveryResponse)
  | consumerRead (handle : Nat)
  | cancelWatch (handle : Nat)

/-- The response a create-watch call delivers immediately: the cached response
when one is present and its version differs from the request's. -/
def cachedDelivery (fetched : Except CacheErr (Option Resource))
    (versionInfo : String) : Option DiscoveryResponse :=
  match fetched with
  | .ok (some r) =>
    match r.Resp with
    | some resp => if resp.versionInfo ≠ versionInfo then some resp else none
    | none => none
  | _ => none

/-- Modelled from the spec: the create-watch path (§4.4 steps 2-4): register a
fresh channel, add the handle to the key's cache entry, and deliver the cached
response immediately when present with a differing version. -/
def orchestrator.createWatch (s : orchestrator) (key versionInfo : String) : orchestrator :=
  match cachedDelivery (((s.cache.AddRequest key s.nextHandle 0).2.1).Fetch key 0 0).1
      versionInfo with
  | some resp =>
    { cache := (((s.cache.AddRequest key s.nextHandle 0).2.1).Fetch key 0 0).2.1,
      channels := (s.nextHandle, key, some resp) :: s.channels,
      nextHandle := s.nextHandle + 1,
      cachedDeliveries := s.cachedDeliveries ++ [(s.nextHandle, resp)],
      fanoutDeliveries := s.fanoutDeliveries }
  | none =>
    { cache := (((s.cache.AddRequest key s.nextHandle 0).2.1).Fetch key 0 0).2.1,
      channels := (s.nextHandle, key, none) :: s.channels,
      nextHandle := s.nextHandle + 1,
      cachedDeliveries := s.cachedDeliveries, fanoutDeliveries := s.fanoutDeliveries }

/-- Write a value into the single-capacity channel slot of one handle. -/
def setSlot (channels : List (Nat × String × Option DiscoveryResponse)) (h : Nat)
    (v : Option DiscoveryResponse) : List (Nat × String × Option DiscoveryResponse) :=
  channels.map (fun e => if e.1 == h then (e.1, e.2.1, v) else e)

/-- Modelled from the spec: one step of the fan-out loop body for a single
handle: deliver to the handle's channel when registered and empty, then remove
the handle from the key's cache entry. -/
def orchestrator.fanoutOne (s : orchestrator) (key : String) (response : DiscoveryResponse)
    (h : Nat) : orchestrator :=
  let s1 :=
    match s.channels.find? (fun e => e.1 == h) with
    | some (_, _, none) =>
      { s with
        channels := setSlot s.channels h (some response),
        fanoutDeliveries := s.fanoutDeliveries ++ [(h, response)] }
    | _ => s
  { s1 with cache := (s1.cache.DeleteRequest key h).2.1 }

/-- Modelled from the spec: the fan-out loop over the handles returned by
SetResponse. -/
def orchestrator.fanout (s : orchestrator) (key : String) (response : DiscoveryResponse) :
    List Nat → orchestrator
  | [] => s
  | h :: rest => (s.fanoutOne key response h).fanout key response rest

/-- Modelled from the spec: handling of one upstream response: SetResponse,
then fan the response out to every handle in the returned set. -/
def orchestrator.upstreamResponse (s : orchestrator) (key : String)
    (response : DiscoveryResponse) : orchestrator :=
  match s.cache.SetResponse key response 0 with
  | (.ok reqs, cache1, _) =>
    orchestrator.fanout { s with cache := cache1 } key response reqs
  | (.error _, cache1, _) => { s with cache := cache1 }

/-- Modelled from the spec: the consumer reads (and so empties) its channel. -/
def orchestrator.consumerRead (s : orchestrator) (h : Nat) : orchestrator :=
  { s with channels := setSlot s.channels h none }

/-- Modelled from the spec: watch cancellation: remove the channel from the
registry and the handle from its key's cache entry. -/
def orchestrator.cancelWatch (s : orchestrator) (h : Nat) : orchestrator :=
  { s with channels := s.channels.filter (fun e => !(e.1 == h)),
           cache := (s.cache.DeleteRequest
             (match s.channels.find? (fun e => e.1 == h) with
              | some e => e.2.1
              | none => "") h).2.1 }

/-- One orchestrator event. -/
def orchestrator.stepEvent (s : orchestrator) : OrchEvent → orchestrator
  | .createWatch key v => s.createWatch key v
  | .upstreamResponse key resp => s.upstreamResponse key resp
  | .consumerRead h => s.consumerRead h
  | .cancelWatch h => s.cancelWatch h

/-- Run a sequence of orchestrator events. -/
def orchestrator.runEvents (s : orchestrator) : List OrchEvent → orchestrator
  | [] => s
  | e :: es => (s.stepEvent e).runEvents es

/-- The initial orchestrator: empty unbounded cache with expiration disabled,
no channels, no deliveries. -/
def orchInit : orchestrator :=
  { cache := { lru := { MaxEntries := 0, items := [] }, ttl := 0 },
    channels := [], nextHandle := 0, cachedDeliveries := [], fanoutDeliveries := [] }

/-- Number of cached-path deliveries made to a watch's channel. -/
def orchestrator.countCached (s : orchestrator) (h : Nat) : Nat :=
  s.cachedDeliveries.countP (fun e => e.1 == h)

/-- Number of fan-out deliveries made to a watch's channel. -/
def orchestrator.countFanout (s : orchestrator) (h : Nat) : Nat :=
  s.fanoutDeliveries.countP (fun e => e.1 == h)

/-- Total number of responses ever delivered to a watch's channel. -/
def orchestrator.countDeliveries (s : orchestrator) (h : Nat) : Nat :=
  s.countCached h + s.countFanout h

/-- The event sequence of TestCachedResponse: preload the cache, create a watch
with an older version (immediate cached delivery), consume it, then push a
newer upstream response (fan-out delivery to the same channel). -/
def cachedResponseEvents : List OrchEvent :=
  [ .upstreamResponse "lds" { versionInfo := "1", payload := "lds resource" },
    .createWatch "lds" "0",
    .consumerRead 0,
    .upstreamResponse "lds" { versionInfo := "2", payload := "some other lds resource" } ]

example : (orchInit.runEvents cachedResponseEvents).countDeliveries 0 = 2 := by decide

/-!
Concrete states used by the scenario theorems and witnesses below.
-/

/-- A sample discovery response (the test fixture's version_A response). -/
def respA : DiscoveryResponse := { versionInfo := "version_A", payload := "test" }

/-- A second sample discovery response. -/
def respB : DiscoveryResponse := { versionInfo := "version_B", payload := "other" }

/-- A cache with maxEntries 1 and a 10-unit TTL, as in TestTTL_Enabled. -/
def ttlCache : cache := { lru := { MaxEntries := 1, items := [] }, ttl := 10 }

/-- ttlCache after SetResponse("key_A", respA) at time 0 (deadline 10). -/
def ttlCacheSet : cache := (ttlCache.SetResponse "key_A" respA 0).2.1

/-- A cache with maxEntries 1 and a 60-unit TTL, as in TestMaxEntries. -/
def evictCache0 : cache := { lru := { MaxEntries := 1, items := [] }, ttl := 60 }

/-- evictCache0 after SetResponse("key_A", respA) at time 0. -/
def evictCache1 : cache := (evictCache0.SetResponse "key_A" respA 0).2.1

/-- A cache holding two entries (key_B most recent) with expiration disabled;
used to observe the recency effect of DeleteRequest. -/
def twoEntryCache : cache :=
  { lru := { MaxEntries := 2,
             items := [("key_B", .res { Resp := none, Requests := [2], ExpirationTime := 0 }),
                       ("key_A", .res { Resp := none, Requests := [1], ExpirationTime := 0 })] },
    ttl := 0 }

/-- The cache produced by NewCache 1 5. -/
def freshCache : cache := { lru := { MaxEntries := 1, items := [] }, ttl := 5 }

/-- A sample run exercising all four cache operations. -/
def sampleOps : List CacheOp :=
  [ .setResponse "key_A" respA 0, .addRequest "key_A" 3 1, .fetch "key_A" 2 2,
    .addRequest "key_B" 4 3, .fetch "key_A" 9 9, .deleteRequest "key_B" 4 ]

/-- Whether a stored pair's request set contains the handle. -/
def entryHas (h : Nat) (kv : String × CacheValue) : Bool :=
  match kv.2 with
  | .res r => decide (h ∈ r.Requests)
  | .corrupt _ => false

/-- Number of cache entries whose request set contains the handle. -/
def cache.memberships (c : cache) (h : Nat) : Nat :=
  c.lru.items.countP (entryHas h)

/-- A stored pair holds a Resource with a duplicate-free request set. -/
def entryRes (kv : String × CacheValue) : Prop :=
  ∃ r, kv.2 = .res r ∧ r.Requests.Nodup

/-- Every stored value is a Resource with a duplicate-free request set. -/
def cache.resNodup (c : cache) : Prop := ∀ kv ∈ c.lru.items, entryRes kv

/-- The orchestrator invariant: each handle is registered in at most one cache
entry and, once fan-out has delivered to it, in none (the sum bound); each
watch has at most one cached delivery; handles not yet allocated are nowhere;
and the cache stores only Resources with duplicate-free request sets. -/
def orchestrator.inv (s : orchestrator) : Prop :=
  (∀ h, s.cache.memberships h + s.countFanout h ≤ 1) ∧
  (∀ h, s.countCached h ≤ 1) ∧
  (∀ h, s.nextHandle ≤ h →
    s.cache.memberships h = 0 ∧ s.countFanout h = 0 ∧ s.countCached h = 0) ∧
  s.cache.resNodup

/-!
Helper lemmas about the LRU store.
-/

/-- A list is a permutation of its found element consed onto the erased rest. -/
theorem find_eraseP_perm {α : Type} {l : List α} {p : α → Bool} {x : α}
    (h : l.find? p = some x) : l.Perm (x :: l.eraseP p) := by
  induction l with
  | nil => simp at h
  | cons b t ih =>
    by_cases hb : p b
    · rw [List.find?_cons_of_pos t hb] at h
      cases h
      rw [List.eraseP_cons_of_pos hb]
    · rw [List.find?_cons_of_neg t (by simp [hb])] at h
      rw [List.eraseP_cons_of_neg (by simp [hb])]
      exact ((ih h).cons b).trans (List.Perm.swap x b _)

namespace LRU

theorem lookup_none_iff (c : LRU) (key : String) :
    c.lookup key = none ↔ c.items.find? (fun p => p.1 == key) = none := by
  simp [lookup]

theorem lookup_some_iff (c : LRU) (key : String) (v : CacheValue) :
    c.lookup key = some v ↔
      ∃ kv, c.items.find? (fun p => p.1 == key) = some kv ∧ kv.2 = v := by
  simp [lookup, Option.map_eq_some']

theorem find_key (c : LRU) {key : String} {kv : String × CacheValue}
    (h : c.items.find? (fun p => p.1 == key) = some kv) : kv.1 = key := by
  have := List.find?_some h
  simpa using this

theorem find_of_lookup_some {c : LRU} {key : String} {v : CacheValue}
    (h : c.lookup key = some v) :
    c.items.find? (fun p => p.1 == key) = some (key, v) := by
  obtain ⟨kv, hf, hv⟩ := (lookup_some_iff c key v).1 h
  have hk := find_key c hf
  have : kv = (key, v) := Prod.ext hk hv
  rw [this] at hf
  exact hf

theorem get_of_lookup_none {c : LRU} {key : String} (h : c.lookup key = none) :
    c.get key = (none, c) := by
  rw [lookup_none_iff] at h
  simp [get, h]

theorem get_of_lookup_some {c : LRU} {key : String} {v : CacheValue}
    (h : c.lookup key = some v) :
    c.get key =
      (some v, { c with items := (key, v) :: c.items.eraseP (fun p => p.1 == key) }) := by
  simp [get, find_of_lookup_some h]

theorem perm_front {c : LRU} {key : String} {v : CacheValue}
    (h : c.lookup key = some v) :
    c.items.Perm ((key, v) :: c.items.eraseP (fun p => p.1 == key)) :=
  find_eraseP_perm (find_of_lookup_some h)

theorem get_front {m : Nat} {key : String} {v : CacheValue}
    {rest : List (String × CacheValue)} :
    (LRU.mk m ((key, v) :: rest)).get key = (some v, LRU.mk m ((key, v) :: rest)) := by
  simp [get, List.find?_cons_of_pos _ (by simp : ((key, v).1 == key) = true),
    List.eraseP_cons_of_pos (by simp : ((key, v).1 == key) = true)]

theorem add_front {m : Nat} {key : String} {v w : CacheValue}
    {rest : List (String × CacheValue)} :
    (LRU.mk m ((key, w) :: rest)).add key v = (LRU.mk m ((key, v) :: rest), []) := by
  simp [add, List.find?_cons_of_pos _ (by simp : ((key, w).1 == key) = true),
    List.eraseP_cons_of_pos (by simp : ((key, w).1 == key) = true)]

theorem remove_front {m : Nat} {key : String} {v : CacheValue}
    {rest : List (String × CacheValue)} :
    (LRU.mk m ((key, v) :: rest)).remove key = (LRU.mk m rest, [(key, v)]) := by
  simp [remove, List.find?_cons_of_pos _ (by simp : ((key, v).1 == key) = true),
    List.eraseP_cons_of_pos (by simp : ((key, v).1 == key) = true)]

theorem add_of_lookup_some {c : LRU} {key : String} {v w : CacheValue}
    (h : c.lookup key = some w) :
    c.add key v =
      ({ c with items := (key, v) :: c.items.eraseP (fun p => p.1 == key) }, []) := by
  simp [add, find_of_lookup_some h]

/-- Adding an absent key pushes it to the front; anything evicted to make room
comes from the old entries, and the surviving tail is a sublist of them. -/
theorem add_of_lookup_none {c : LRU} {key : String} {v : CacheValue}
    (h : c.lookup key = none) :
    ∃ rest, (c.add key v).1 = LRU.mk c.MaxEntries ((key, v) :: rest) ∧
      List.Sublist rest c.items ∧ ∀ kv ∈ (c.add key v).2, kv ∈ c.items := by
  rw [lookup_none_iff] at h
  unfold add
  rw [h]
  by_cases hc : c.MaxEntries ≠ 0 ∧ ((key, v) :: c.items).length > c.MaxEntries
  · simp only [if_pos hc]
    match hi : c.items with
    | [] =>
      exfalso
      rw [hi] at hc
      simp at hc
    | a :: t =>
      have hne : ((key, v) :: a :: t) ≠ [] := by simp
      have hg : ((key, v) :: a :: t).getLast? =
          some (((key, v) :: a :: t).getLast hne) := List.getLast?_eq_getLast _ hne
      have hgl : ((key, v) :: a :: t).getLast hne = (a :: t).getLast (by simp) :=
        List.getLast_cons (by simp)
      refine ⟨(a :: t).dropLast, ?_, ?_, ?_⟩
      · simp [removeOldest, hg]
      · exact List.dropLast_sublist (a :: t)
      · intro kv hkv
        simp only [removeOldest, hg] at hkv
        simp at hkv
        subst hkv
        exact List.getLast_mem _
  · simp only [if_neg hc]
    exact ⟨c.items, rfl, List.Sublist.refl _, by simp⟩

end LRU

/-!
Characterization of each cache operation by the shape of the stored entry.
-/

namespace cache

theorem Fetch_of_lookup_none {c : cache} {key : String} (n1 n2 : Nat)
    (h : c.lru.lookup key = none) :
    c.Fetch key n1 n2 = (.error (.notFound key), c, []) := by
  simp [Fetch, LRU.get_of_lookup_none h]

theorem Fetch_of_corrupt {c : cache} {key tag : String} (n1 n2 : Nat)
    (h : c.lru.lookup key = some (.corrupt tag)) :
    c.Fetch key n1 n2 =
      (.error (.typeMismatch key),
       { c with lru := { c.lru with
           items := (key, .corrupt tag) :: c.lru.items.eraseP (fun p => p.1 == key) } },
       []) := by
  simp [Fetch, LRU.get_of_lookup_some h]

theorem Fetch_live {c : cache} {key : String} {r : Resource} (n1 n2 : Nat)
    (h : c.lru.lookup key = some (.res r)) (he : r.isExpired n1 = false) :
    c.Fetch key n1 n2 =
      (.ok (some r),
       { c with lru := { c.lru with
           items := (key, .res r) :: c.lru.items.eraseP (fun p => p.1 == key) } },
       []) := by
  simp [Fetch, LRU.get_of_lookup_some h, he]

theorem Fetch_expired_expired {c : cache} {key : String} {r : Resource} (n1 n2 : Nat)
    (h : c.lru.lookup key = some (.res r))
    (h1 : r.isExpired n1 = true) (h2 : r.isExpired n2 = true) :
    c.Fetch key n1 n2 =
      (.ok none,
       { c with lru := { c.lru with items := c.lru.items.eraseP (fun p => p.1 == key) } },
       [(key, .res r)]) := by
  simp [Fetch, LRU.get_of_lookup_some h, h1, LRU.get_front, LRU.remove_front, h2]

theorem Fetch_expired_live {c : cache} {key : String} {r : Resource} (n1 n2 : Nat)
    (h : c.lru.lookup key = some (.res r))
    (h1 : r.isExpired n1 = true) (h2 : r.isExpired n2 = false) :
    c.Fetch key n1 n2 =
      (.ok (some r),
       { c with lru := { c.lru with
           items := (key, .res r) :: c.lru.items.eraseP (fun p => p.1 == key) } },
       []) := by
  simp [Fetch, LRU.get_of_lookup_some h, h1, LRU.get_front, h2]

theorem SetResponse_of_lookup_none {c : cache} {key : String}
    (response : DiscoveryResponse) (now : Nat) (h : c.lru.lookup key = none) :
    c.SetResponse key response now =
      (.ok [],
       { c with lru :=
           (c.lru.add key (.res (Resource.mk (some response) [] (c.getExpirationTime now)))).1 },
       (c.lru.add key (.res (Resource.mk (some response) [] (c.getExpirationTime now)))).2) := by
  simp [SetResponse, LRU.get_of_lookup_none h]

theorem SetResponse_of_corrupt {c : cache} {key tag : String}
    (response : DiscoveryResponse) (now : Nat)
    (h : c.lru.lookup key = some (.corrupt tag)) :
    c.SetResponse key response now =
      (.error (.typeMismatch key),
       { c with lru := { c.lru with
           items := (key, .corrupt tag) :: c.lru.items.eraseP (fun p => p.1 == key) } },
       []) := by
  simp [SetResponse, LRU.get_of_lookup_some h]

theorem SetResponse_of_lookup_res {c : cache} {key : String} {r : Resource}
    (response : DiscoveryResponse) (now : Nat)
    (h : c.lru.lookup key = some (.res r)) :
    c.SetResponse key response now =
      (.ok r.Requests,
       { c with lru := { c.lru with items := (key, .res (Resource.mk (some response) r.Requests (c.getExpirationTime now))) :: c.lru.items.eraseP (fun p => p.1 == key) } },
       []) := by
  simp [SetResponse, LRU.get_of_lookup_some h, LRU.add_front]

theorem AddRequest_of_lookup_none {c : cache} {key : String}
    (req : Nat) (now : Nat) (h : c.lru.lookup key = none) :
    c.AddRequest key req now =
      (.ok (),
       { c with lru :=
           (c.lru.add key (.res (Resource.mk none [req] (c.getExpirationTime now)))).1 },
       (c.lru.add key (.res (Resource.mk none [req] (c.getExpirationTime now)))).2) := by
  simp [AddRequest, LRU.get_of_lookup_none h]

theorem AddRequest_of_corrupt {c : cache} {key tag : String} (req : Nat) (now : Nat)
    (h : c.lru.lookup key = some (.corrupt tag)) :
    c.AddRequest key req now =
      (.error (.typeMismatch key),
       { c with lru := { c.lru with
           items := (key, .corrupt tag) :: c.lru.items.eraseP (fun p => p.1 == key) } },
       []) := by
  simp [AddRequest, LRU.get_of_lookup_some h]

theorem AddRequest_of_lookup_res {c : cache} {key : String} {r : Resource}
    (req : Nat) (now : Nat) (h : c.lru.lookup key = some (.res r)) :
    c.AddRequest key req now =
      (.ok (),
       { c with lru := { c.lru with items := (key, .res (Resource.mk r.Resp (r.Requests.insert req) r.ExpirationTime)) :: c.lru.items.eraseP (fun p => p.1 == key) } },
       []) := by
  simp [AddRequest, LRU.get_of_lookup_some h, LRU.add_front]

theorem DeleteRequest_of_lookup_none {c : cache} {key : String} (req : Nat)
    (h : c.lru.lookup key = none) :
    c.DeleteRequest key req = (.ok (), c, []) := by
  simp [DeleteRequest, LRU.get_of_lookup_none h]

theorem DeleteRequest_of_corrupt {c : cache} {key tag : String} (req : Nat)
    (h : c.lru.lookup key = some (.corrupt tag)) :
    c.DeleteRequest key req =
      (.error (.typeMismatch key),
       { c with lru := { c.lru with
           items := (key, .corrupt tag) :: c.lru.items.eraseP (fun p => p.1 == key) } },
       []) := by
  simp [DeleteRequest, LRU.get_of_lookup_some h]

theorem DeleteRequest_of_lookup_res {c : cache} {key : String} {r : Resource}
    (req : Nat) (h : c.lru.lookup key = some (.res r)) :
    c.DeleteRequest key req =
      (.ok (),
       { c with lru := { c.lru with items := (key, .res (Resource.mk r.Resp (r.Requests.filter (fun x => !(x == req))) r.ExpirationTime)) :: c.lru.items.eraseP (fun p => p.1 == key) } },
       []) := by
  simp [DeleteRequest, LRU.get_of_lookup_some h, LRU.add_front]

/-- A looked-up value is one of the stored values. -/
theorem lookup_mem {c : cache} {key : String} {v : CacheValue}
    (h : c.lru.lookup key = some v) : (key, v) ∈ c.lru.items :=
  List.mem_of_find?_eq_some (LRU.find_of_lookup_some h)

/-- In a well-formed cache every looked-up value is a Resource. -/
theorem lookup_isRes {c : cache} (hwf : c.wellFormed) {key : String} {v : CacheValue}
    (h : c.lru.lookup key = some v) : v.isRes = true :=
  hwf _ (lookup_mem h)

end cache

namespace LRU

/-- Lookup at the front of the item list. -/
theorem lookup_front {m : Nat} {key : String} {v : CacheValue}
    {rest : List (String × CacheValue)} :
    (LRU.mk m ((key, v) :: rest)).lookup key = some v := by
  simp [lookup, List.find?_cons_of_pos _ (by simp : ((key, v).1 == key) = true)]

/-- After adding a key its value is stored under that key. -/
theorem lookup_add_self (c : LRU) (key : String) (v : CacheValue) :
    ((c.add key v).1).lookup key = some v := by
  rcases hl : c.lookup key with _ | w
  · obtain ⟨rest, h1, -, -⟩ := add_of_lookup_none (v := v) hl
    rw [h1]
    exact lookup_front
  · rw [add_of_lookup_some (v := v) hl]
    exact lookup_front

/-- A pointwise property of the stored pairs is preserved by add, provided it
holds of the new pair; everything evicted by the add satisfied it already. -/
theorem add_pred {c : LRU} {key : String} {v : CacheValue}
    (P : String × CacheValue → Prop)
    (hc : ∀ kv ∈ c.items, P kv) (hv : P (key, v)) :
    (∀ kv ∈ ((c.add key v).1).items, P kv) ∧ (∀ kv ∈ (c.add key v).2, P kv) := by
  rcases hl : c.lookup key with _ | w
  · obtain ⟨rest, h1, h2, h3⟩ := add_of_lookup_none (v := v) hl
    rw [h1]
    refine ⟨?_, fun kv hkv => hc kv (h3 kv hkv)⟩
    intro kv hkv
    rcases List.mem_cons.1 hkv with h | h
    · exact h ▸ hv
    · exact hc kv (h2.mem h)
  · rw [add_of_lookup_some (v := v) hl]
    constructor
    · intro kv hkv
      rcases List.mem_cons.1 hkv with h | h
      · exact h ▸ hv
      · exact hc kv ((List.eraseP_sublist _).mem h)
    · simp

end LRU

namespace cache

/-- Unfolding of run on a cons. -/
theorem run_cons (c : cache) (op : CacheOp) (ops : List CacheOp) :
    c.run (op :: ops) =
      (((c.step op).1.run ops).1,
       (c.step op).2.1 ++ ((c.step op).1.run ops).2.1,
       (c.step op).2.2 ++ ((c.step op).1.run ops).2.2) := rfl

/-- Unfolding of step per operation. -/
theorem step_fetch (c : cache) (key : String) (n1 n2 : Nat) :
    c.step (.fetch key n1 n2) =
      ((c.Fetch key n1 n2).2.1, errList (c.Fetch key n1 n2).1, (c.Fetch key n1 n2).2.2) := rfl

theorem step_setResponse (c : cache) (key : String) (response : DiscoveryResponse) (now : Nat) :
    c.step (.setResponse key response now) =
      ((c.SetResponse key response now).2.1, errList (c.SetResponse key response now).1,
       (c.SetResponse key response now).2.2) := rfl

theorem step_addRequest (c : cache) (key : String) (req now : Nat) :
    c.step (.addRequest key req now) =
      ((c.AddRequest key req now).2.1, errList (c.AddRequest key req now).1,
       (c.AddRequest key req now).2.2) := rfl

theorem step_deleteRequest (c : cache) (key : String) (req : Nat) :
    c.step (.deleteRequest key req) =
      ((c.DeleteRequest key req).2.1, errList (c.DeleteRequest key req).1,
       (c.DeleteRequest key req).2.2) := rfl

/-- One cache API call on a well-formed cache keeps it well formed, cannot
produce a type-mismatch error, and evicts only Resource values. -/
theorem step_wf {c : cache} (hwf : c.wellFormed) (op : CacheOp) :
    (c.step op).1.wellFormed ∧ (∀ e ∈ (c.step op).2.1, e.isTypeMismatch = false) ∧
      (∀ kv ∈ (c.step op).2.2, kv.2.isRes = true) := by
  have hConsErase : ∀ (key : String) (v : CacheValue), v.isRes = true →
      ∀ kv ∈ (key, v) :: c.lru.items.eraseP (fun p => p.1 == key), kv.2.isRes = true := by
    intro key v hv kv hkv
    rcases List.mem_cons.1 hkv with h | h
    · rw [h]; exact hv
    · exact hwf kv ((List.eraseP_sublist _).mem h)
  have hErase : ∀ (key : String),
      ∀ kv ∈ c.lru.items.eraseP (fun p => p.1 == key), kv.2.isRes = true := by
    intro key kv hkv
    exact hwf kv ((List.eraseP_sublist _).mem hkv)
  cases op with
  | fetch key n1 n2 =>
    rw [step_fetch]
    rcases hl : c.lru.lookup key with _ | v
    · rw [Fetch_of_lookup_none n1 n2 hl]
      refine ⟨hwf, ?_, by simp⟩
      intro e he
      simp [errList] at he
      rw [he]; rfl
    · have hres := lookup_isRes hwf hl
      cases v with
      | corrupt tag => simp [CacheValue.isRes] at hres
      | res r =>
        by_cases h1 : r.isExpired n1
        · by_cases h2 : r.isExpired n2
          · rw [Fetch_expired_expired n1 n2 hl h1 h2]
            refine ⟨hErase key, by simp [errList], ?_⟩
            intro kv hkv
            rw [List.mem_singleton.1 hkv]; rfl
          · rw [Fetch_expired_live n1 n2 hl h1 (by simpa using h2)]
            exact ⟨hConsErase key _ rfl, by simp [errList], by simp⟩
        · rw [Fetch_live n1 n2 hl (by simpa using h1)]
          exact ⟨hConsErase key _ rfl, by simp [errList], by simp⟩
  | setResponse key response now =>
    rw [step_setResponse]
    rcases hl : c.lru.lookup key with _ | v
    · have hadd := @LRU.add_pred c.lru key
        (.res (Resource.mk (some response) [] (c.getExpirationTime now)))
        (fun kv => kv.2.isRes = true) hwf rfl
      rw [SetResponse_of_lookup_none response now hl]
      exact ⟨hadd.1, by simp [errList], hadd.2⟩
    · have hres := lookup_isRes hwf hl
      cases v with
      | corrupt tag => simp [CacheValue.isRes] at hres
      | res r =>
        rw [SetResponse_of_lookup_res response now hl]
        exact ⟨hConsErase key _ rfl, by simp [errList], by simp⟩
  | addRequest key req now =>
    rw [step_addRequest]
    rcases hl : c.lru.lookup key with _ | v
    · have hadd := @LRU.add_pred c.lru key
        (.res (Resource.mk none [req] (c.getExpirationTime now)))
        (fun kv => kv.2.isRes = true) hwf rfl
      rw [AddRequest_of_lookup_none req now hl]
      exact ⟨hadd.1, by simp [errList], hadd.2⟩
    · have hres := lookup_isRes hwf hl
      cases v with
      | corrupt tag => simp [CacheValue.isRes] at hres
      | res r =>
        rw [AddRequest_of_lookup_res req now hl]
        exact ⟨hConsErase key _ rfl, by simp [errList], by simp⟩
  | deleteRequest key req =>
    rw [step_deleteRequest]
    rcases hl : c.lru.lookup key with _ | v
    · rw [DeleteRequest_of_lookup_none req hl]
      exact ⟨hwf, by simp [errList], by simp⟩
    · have hres := lookup_isRes hwf hl
      cases v with
      | corrupt tag => simp [CacheValue.isRes] at hres
      | res r =>
        rw [DeleteRequest_of_lookup_res req hl]
        exact ⟨hConsErase key _ rfl, by simp [errList], by simp⟩

/-- A whole run of cache API calls on a well-formed cache never produces a
type-mismatch error and evicts only Resource values. -/
theorem run_wf {c : cache} (hwf : c.wellFormed) (ops : List CacheOp) :
    (c.run ops).1.wellFormed ∧ (∀ e ∈ (c.run ops).2.1, e.isTypeMismatch = false) ∧
      (∀ kv ∈ (c.run ops).2.2, kv.2.isRes = true) := by
  induction ops generalizing c with
  | nil => exact ⟨hwf, by simp [run], by simp [run]⟩
  | cons op ops ih =>
    obtain ⟨hwf1, herr1, hev1⟩ := step_wf hwf op
    obtain ⟨hwf2, herr2, hev2⟩ := ih hwf1
    rw [run_cons]
    refine ⟨hwf2, ?_, ?_⟩
    · intro e he
      rcases List.mem_append.1 he with h | h
      · exact herr1 e h
      · exact herr2 e h
    · intro kv hkv
      rcases List.mem_append.1 hkv with h | h
      · exact hev1 kv h
      · exact hev2 kv h

end cache

/-- isExpired is monotone in the current time. -/
theorem Resource.isExpired_mono {r : Resource} {n1 n2 : Nat} (hle : n1 ≤ n2)
    (h : r.isExpired n1 = true) : r.isExpired n2 = true := by
  unfold Resource.isExpired at h ⊢
  by_cases h0 : r.ExpirationTime = 0
  · simp [h0] at h
  · simp [h0] at h ⊢
    omega

/-!
Claim theorems.
-/

/-- C1 counterexample: with ttl 10, after SetResponse at time 0, a Fetch at
time 11 finds the expired entry, lazily evicts it (the onEvict invocation is
recorded), and returns an absent resource with NO error, not a notFound
error as claimed. -/
theorem fetch_lazy_eviction_no_error_cex :
    (ttlCacheSet.Fetch "key_A" 11 11).1 = .ok none ∧
    (ttlCacheSet.Fetch "key_A" 11 11).1 ≠ .error (.notFound "key_A") ∧
    (ttlCacheSet.Fetch "key_A" 11 11).2.2 =
      [("key_A", .res (Resource.mk (some respA) [] 10))] := by decide

/-- C1 (amended): Fetch fails with notFound exactly when the key is absent at
the initial lookup; an expired entry found on the expiration path is removed
(firing onEvict) and Fetch returns an absent result with no error, so the
notFound error appears only on a subsequent Fetch; Fetch fails with
typeMismatch only when the stored value is not a Resource. -/
theorem fetch_error_classification (c : cache) (key : String) (n1 n2 : Nat) :
    ((c.Fetch key n1 n2).1 = .error (.notFound key) ↔ c.lru.lookup key = none) ∧
    (∀ tag, (c.Fetch key n1 n2).1 = .error (.typeMismatch tag) →
      tag = key ∧ ∃ t, c.lru.lookup key = some (.corrupt t)) ∧
    ((c.Fetch key n1 n2).1 = .ok none →
      ∃ r, c.lru.lookup key = some (.res r) ∧ r.isExpired n1 = true ∧
        (c.Fetch key n1 n2).2.2 = [(key, .res r)]) := by
  rcases hl : c.lru.lookup key with _ | v
  · rw [cache.Fetch_of_lookup_none n1 n2 hl]
    simp
  · cases v with
    | corrupt t =>
      rw [cache.Fetch_of_corrupt n1 n2 hl]
      simp [hl]
    | res r =>
      by_cases h1 : r.isExpired n1
      · by_cases h2 : r.isExpired n2
        · rw [cache.Fetch_expired_expired n1 n2 hl h1 h2]
          simp [hl]
          exact h1
        · rw [cache.Fetch_expired_live n1 n2 hl h1 (by simpa using h2)]
          simp [hl]
      · rw [cache.Fetch_live n1 n2 hl (by simpa using h1)]
        simp [hl]

/-- C1 witness: the amended classification applied to a concrete cache, key
and times. -/
theorem fetch_error_classification_witness :
    ((ttlCacheSet.Fetch "key_A" 3 3).1 = .error (.notFound "key_A") ↔
      ttlCacheSet.lru.lookup "key_A" = none) ∧
    (∀ tag, (ttlCacheSet.Fetch "key_A" 3 3).1 = .error (.typeMismatch tag) →
      tag = "key_A" ∧ ∃ t, ttlCacheSet.lru.lookup "key_A" = some (.corrupt t)) ∧
    ((ttlCacheSet.Fetch "key_A" 3 3).1 = .ok none →
      ∃ r, ttlCacheSet.lru.lookup "key_A" = some (.res r) ∧ r.isExpired 3 = true ∧
        (ttlCacheSet.Fetch "key_A" 3 3).2.2 = [("key_A", .res r)]) :=
  fetch_error_classification ttlCacheSet "key_A" 3 3

/-- C3: SetResponse creates the entry with an empty request set when the key is
absent and updates it otherwise; in both cases it stores the new response and
sets the deadline to now + ttl (or the never-expires value when ttl = 0), and
it returns the entry's current request set, which is empty on creation. -/
theorem setResponse_spec (c : cache) (key : String) (response : DiscoveryResponse)
    (now : Nat) :
    (c.lru.lookup key = none →
      (c.SetResponse key response now).1 = .ok [] ∧
      (c.SetResponse key response now).2.1.lru.lookup key =
        some (.res (Resource.mk (some response) [] (if c.ttl > 0 then now + c.ttl else 0)))) ∧
    (∀ r, c.lru.lookup key = some (.res r) →
      (c.SetResponse key response now).1 = .ok r.Requests ∧
      (c.SetResponse key response now).2.1.lru.lookup key =
        some (.res (Resource.mk (some response) r.Requests
          (if c.ttl > 0 then now + c.ttl else 0)))) := by
  constructor
  · intro h
    rw [cache.SetResponse_of_lookup_none response now h]
    refine ⟨rfl, ?_⟩
    show ((c.lru.add key _).1).lookup key = _
    rw [LRU.lookup_add_self]
    rfl
  · intro r h
    rw [cache.SetResponse_of_lookup_res response now h]
    exact ⟨rfl, LRU.lookup_front⟩

/-- C3 witness: SetResponse on an absent key of a concrete cache with ttl 10
creates the entry with an empty request set and deadline 5 + 10. -/
theorem setResponse_spec_witness :
    (ttlCache.SetResponse "key_A" respA 5).1 = .ok [] ∧
    (ttlCache.SetResponse "key_A" respA 5).2.1.lru.lookup "key_A" =
      some (.res (Resource.mk (some respA) [] 15)) := by
  have h := (setResponse_spec ttlCache "key_A" respA 5).1 (by decide)
  simpa using h

/-- C5: whenever Fetch returns an entry, that entry was not expired at the
moment of the call (and so its deadline is the never-expires value or has not
passed). -/
theorem fetch_never_returns_expired {c : cache} {key : String} {n1 n2 : Nat}
    {r : Resource} (hle : n1 ≤ n2) (h : (c.Fetch key n1 n2).1 = .ok (some r)) :
    r.isExpired n1 = false := by
  rcases hl : c.lru.lookup key with _ | v
  · rw [cache.Fetch_of_lookup_none n1 n2 hl] at h
    simp at h
  · cases v with
    | corrupt t =>
      rw [cache.Fetch_of_corrupt n1 n2 hl] at h
      simp at h
    | res r0 =>
      by_cases h1 : r0.isExpired n1
      · by_cases h2 : r0.isExpired n2
        · rw [cache.Fetch_expired_expired n1 n2 hl h1 h2] at h
          simp at h
        · exact absurd (Resource.isExpired_mono hle h1) (by simpa using h2)
      · rw [cache.Fetch_live n1 n2 hl (by simpa using h1)] at h
        simp at h
        rw [← h]
        simpa using h1

/-- C5 witness: a concrete Fetch that returns an entry; the entry is not
expired at the fetch time. -/
theorem fetch_never_returns_expired_witness :
    Resource.isExpired (Resource.mk none [2] 0) 3 = false :=
  @fetch_never_returns_expired twoEntryCache "key_B" 3 4 (Resource.mk none [2] 0)
    (by decide) (by decide)

/-- C4: SetResponse on an entry that was expired (but not yet reaped by a
Fetch) resurrects it with a fresh deadline: a subsequent Fetch before that new
deadline returns the newly set response, not notFound. -/
theorem setResponse_resurrects (c : cache) (key : String) (response : DiscoveryResponse)
    (now t n1 n2 : Nat) (r : Resource)
    (hl : c.lru.lookup key = some (.res r)) (_hexp : r.isExpired t = true)
    (hfresh : Resource.isExpired
      (Resource.mk (some response) r.Requests (c.getExpirationTime now)) n1 = false) :
    ((c.SetResponse key response now).2.1.Fetch key n1 n2).1 =
      .ok (some (Resource.mk (some response) r.Requests (c.getExpirationTime now))) := by
  rw [cache.SetResponse_of_lookup_res response now hl]
  rw [cache.Fetch_live n1 n2 LRU.lookup_front hfresh]

/-- C4 witness: the entry ("key_A", deadline 10) is expired at time 11; a
SetResponse at time 20 (ttl 10) gives it deadline 30, and a Fetch at time 25
returns the new response. -/
theorem setResponse_resurrects_witness :
    ((ttlCacheSet.SetResponse "key_A" respB 20).2.1.Fetch "key_A" 25 25).1 =
      .ok (some (Resource.mk (some respB) [] 30)) := by
  have h := setResponse_resurrects ttlCacheSet "key_A" respB 20 11 25 25
    (Resource.mk (some respA) [] 10) (by decide) (by decide) (by decide)
  simpa using h

/-- C6: with maxEntries 1, SetResponse("key_A") followed by AddRequest("key_B")
evicts key_A's entry, firing onEvict exactly once with key_A and a snapshot of
its entry; then Fetch("key_A") is notFound and Fetch("key_B") returns an entry
with no response set. -/
theorem maxEntries_eviction_scenario :
    (evictCache1.AddRequest "key_B" 7 1).2.2 =
      [("key_A", .res (Resource.mk (some respA) [] 60))] ∧
    ((evictCache1.AddRequest "key_B" 7 1).2.1.Fetch "key_A" 2 2).1 =
      .error (.notFound "key_A") ∧
    ((evictCache1.AddRequest "key_B" 7 1).2.1.Fetch "key_B" 2 2).1 =
      .ok (some (Resource.mk none [7] 61)) := by decide

/-- C7: Fetch on a present non-expired entry returns it with no eviction and
leaves the stored response, request set, and deadline unchanged; AddRequest
and DeleteRequest also leave the deadline and response unchanged — only
SetResponse rewrites them. -/
theorem fetch_frame {c : cache} {key : String} {r : Resource} (n1 n2 now req : Nat)
    (hl : c.lru.lookup key = some (.res r)) (he : r.isExpired n1 = false) :
    (c.Fetch key n1 n2).1 = .ok (some r) ∧
    (c.Fetch key n1 n2).2.1.lru.lookup key = some (.res r) ∧
    (c.Fetch key n1 n2).2.2 = [] ∧
    (c.AddRequest key req now).2.1.lru.lookup key =
      some (.res (Resource.mk r.Resp (r.Requests.insert req) r.ExpirationTime)) ∧
    (c.DeleteRequest key req).2.1.lru.lookup key =
      some (.res (Resource.mk r.Resp (r.Requests.filter (fun x => !(x == req)))
        r.ExpirationTime)) := by
  rw [cache.Fetch_live n1 n2 hl he, cache.AddRequest_of_lookup_res req now hl,
    cache.DeleteRequest_of_lookup_res req hl]
  exact ⟨rfl, LRU.lookup_front, rfl, LRU.lookup_front, LRU.lookup_front⟩

/-- C8 counterexample: DeleteRequest of a handle that is not in the entry's set
is not a no-op: it marks the entry most recently used, observably changing
which key a later capacity eviction removes. -/
theorem deleteRequest_recency_cex :
    (twoEntryCache.DeleteRequest "key_A" 99).1 = .ok () ∧
    99 ∉ (Resource.mk none [1] 0).Requests ∧
    (twoEntryCache.DeleteRequest "key_A" 99).2.1 ≠ twoEntryCache ∧
    ((twoEntryCache.DeleteRequest "key_A" 99).2.1.SetResponse "key_C" respB 0).2.2 =
      [("key_B", .res (Resource.mk none [2] 0))] ∧
    (twoEntryCache.SetResponse "key_C" respB 0).2.2 =
      [("key_A", .res (Resource.mk none [1] 0))] := by decide

/-- C8 (amended): DeleteRequest removes the handle from the entry's request set
when present, never errors and never evicts; a missing key is a strict no-op;
when the key is present the entry's content changes only by deleting the
handle (content unchanged when the handle is absent), though the entry is
marked most recently used; the entry itself is never removed, even when its
request set becomes empty. -/
theorem deleteRequest_spec (c : cache) (key : String) (req : Nat) :
    (c.lru.lookup key = none → c.DeleteRequest key req = (.ok (), c, [])) ∧
    (∀ r, c.lru.lookup key = some (.res r) →
      (c.DeleteRequest key req).1 = .ok () ∧
      (c.DeleteRequest key req).2.2 = [] ∧
      (c.DeleteRequest key req).2.1.lru.items =
        (key, .res (Resource.mk r.Resp (r.Requests.filter (fun x => !(x == req)))
          r.ExpirationTime)) :: c.lru.items.eraseP (fun p => p.1 == key) ∧
      (req ∉ r.Requests →
        (c.DeleteRequest key req).2.1.lru.lookup key = some (.res r))) := by
  constructor
  · intro h
    exact cache.DeleteRequest_of_lookup_none req h
  · intro r h
    rw [cache.DeleteRequest_of_lookup_res req h]
    refine ⟨rfl, rfl, rfl, ?_⟩
    intro hmem
    have hfil : r.Requests.filter (fun x => !(x == req)) = r.Requests := by
      rw [List.filter_eq_self]
      intro a ha
      simp
      rintro rfl
      exact hmem ha
    rw [hfil]
    exact LRU.lookup_front

/-- C8 witness: deleting an absent handle from a present entry returns no
error, evicts nothing, and leaves the entry's content intact. -/
theorem deleteRequest_spec_witness :
    (twoEntryCache.DeleteRequest "key_A" 99).2.2 = [] ∧
    (twoEntryCache.DeleteRequest "key_A" 99).2.1.lru.lookup "key_A" =
      some (.res (Resource.mk none [1] 0)) := by
  have h := (deleteRequest_spec twoEntryCache "key_A" 99).2
    (Resource.mk none [1] 0) (by decide)
  exact ⟨h.2.1, h.2.2.2 (by decide)⟩

/-- C9: starting from any cache built by NewCache, every sequence of Fetch,
SetResponse, AddRequest and DeleteRequest calls keeps only Resource values
stored, never produces the "unable to cast cache value" typeMismatch error,
and hands the eviction callback only Resource values, so its cast-failure
panic cannot fire. -/
theorem cache_values_always_resources {maxEntries : Nat} {ttl : Int} {c0 : cache}
    (h : NewCache maxEntries ttl = .ok c0) (ops : List CacheOp) :
    (c0.run ops).1.wellFormed ∧
    (∀ e ∈ (c0.run ops).2.1, e.isTypeMismatch = false) ∧
    (∀ kv ∈ (c0.run ops).2.2, kv.2.isRes = true) := by
  have hwf : c0.wellFormed := by
    unfold NewCache at h
    by_cases httl : ttl < 0
    · simp [httl] at h
    · simp [httl] at h
      rw [← h]
      intro kv hkv
      simp at hkv
  exact cache.run_wf hwf ops

/-- C9 witness: a concrete run over all four operation kinds out of NewCache
produces no typeMismatch error and evicts only Resource values. -/
theorem cache_values_always_resources_witness :
    (freshCache.run sampleOps).1.wellFormed ∧
    (∀ e ∈ (freshCache.run sampleOps).2.1, e.isTypeMismatch = false) ∧
    (∀ kv ∈ (freshCache.run sampleOps).2.2, kv.2.isRes = true) :=
  @cache_values_always_resources 1 5 freshCache (by decide) sampleOps

/-- C10: FetchReadOnly agrees with Fetch: a fetched entry is returned by value
with no error, an absent result (including the just-lazily-evicted case) is
returned as the zero Resource, and errors are passed through with the zero
Resource; the state and eviction effects are those of Fetch. -/
theorem fetchReadOnly_agrees (c : cache) (key : String) (n1 n2 : Nat) :
    (∀ r, (c.Fetch key n1 n2).1 = .ok (some r) →
      (c.FetchReadOnly key n1 n2).1 = (r, none)) ∧
    ((c.Fetch key n1 n2).1 = .ok none →
      (c.FetchReadOnly key n1 n2).1 = (Resource.zero, none)) ∧
    (∀ e, (c.Fetch key n1 n2).1 = .error e →
      (c.FetchReadOnly key n1 n2).1 = (Resource.zero, some e)) ∧
    (c.FetchReadOnly key n1 n2).2 = (c.Fetch key n1 n2).2 := by
  rcases hf : c.Fetch key n1 n2 with ⟨res, c1, ev⟩
  cases res with
  | error e =>
    refine ⟨by simp [cache.FetchReadOnly, hf], by simp [cache.FetchReadOnly, hf], ?_, ?_⟩ <;>
      simp [cache.FetchReadOnly, hf]
  | ok o =>
    cases o with
    | none =>
      refine ⟨by simp [cache.FetchReadOnly, hf], ?_, by simp [cache.FetchReadOnly, hf], ?_⟩ <;>
        simp [cache.FetchReadOnly, hf]
    | some r =>
      refine ⟨?_, by simp [cache.FetchReadOnly, hf], by simp [cache.FetchReadOnly, hf], ?_⟩ <;>
        simp [cache.FetchReadOnly, hf]

/-- C10 witness: FetchReadOnly on a present entry returns the value copy with
no error. -/
theorem fetchReadOnly_agrees_witness :
    (twoEntryCache.FetchReadOnly "key_B" 3 4).1 = (Resource.mk none [2] 0, none) :=
  (fetchReadOnly_agrees twoEntryCache "key_B" 3 4).1 (Resource.mk none [2] 0) (by decide)

/-- C7 witness: the frame property applied to a concrete two-entry cache. -/
theorem fetch_frame_witness :
    (twoEntryCache.Fetch "key_A" 3 4).1 = .ok (some (Resource.mk none [1] 0)) ∧
    (twoEntryCache.Fetch "key_A" 3 4).2.1.lru.lookup "key_A" =
      some (.res (Resource.mk none [1] 0)) ∧
    (twoEntryCache.Fetch "key_A" 3 4).2.2 = [] ∧
    (twoEntryCache.AddRequest "key_A" 9 5).2.1.lru.lookup "key_A" =
      some (.res (Resource.mk none ([1].insert 9) 0)) ∧
    (twoEntryCache.DeleteRequest "key_A" 9).2.1.lru.lookup "key_A" =
      some (.res (Resource.mk none ([1].filter (fun x => !(x == 9))) 0)) :=
  @fetch_frame twoEntryCache "key_A" (Resource.mk none [1] 0)
    3 4 5 9 (by decide) (by decide)

/-!
Membership counting and request-set wellformedness across cache operations.
-/

namespace cache

theorem resNodup_wellFormed {c : cache} (h : c.resNodup) : c.wellFormed := by
  intro kv hkv
  obtain ⟨r, hr, -⟩ := h kv hkv
  rw [hr]
  rfl

/-- A looked-up value in a resNodup cache is a Resource with a Nodup set. -/
theorem lookup_resNodup {c : cache} (hc : c.resNodup) {key : String} {v : CacheValue}
    (h : c.lru.lookup key = some v) : ∃ r, v = .res r ∧ r.Requests.Nodup :=
  hc _ (lookup_mem h)

/-- Membership count through the front-permutation of a present entry. -/
theorem entryHas_res (h : Nat) (key : String) (r : Resource) :
    entryHas h (key, .res r) = decide (h ∈ r.Requests) := rfl

theorem entryHas_corrupt (h : Nat) (key tag : String) :
    entryHas h (key, .corrupt tag) = false := rfl

theorem memberships_front {c : cache} {key : String} {r : Resource}
    (hl : c.lru.lookup key = some (.res r)) (h : Nat) :
    c.memberships h =
      (c.lru.items.eraseP (fun p => p.1 == key)).countP (entryHas h) +
        (if entryHas h (key, CacheValue.res r) then 1 else 0) := by
  unfold memberships
  rw [(LRU.perm_front hl).countP_eq]
  rw [List.countP_cons]

theorem memberships_fetch_le (c : cache) (key : String) (n1 n2 h : Nat) :
    ((c.Fetch key n1 n2).2.1).memberships h ≤ c.memberships h := by
  rcases hl : c.lru.lookup key with _ | v
  · rw [Fetch_of_lookup_none n1 n2 hl]
  · cases v with
    | corrupt t =>
      rw [Fetch_of_corrupt n1 n2 hl]
      show ((key, CacheValue.corrupt t) :: _ : List _).countP _ ≤ _
      rw [List.countP_cons]
      unfold memberships
      rw [(LRU.perm_front hl).countP_eq, List.countP_cons]
    | res r =>
      by_cases h1 : r.isExpired n1
      · by_cases h2 : r.isExpired n2
        · rw [Fetch_expired_expired n1 n2 hl h1 h2]
          show (c.lru.items.eraseP _).countP _ ≤ _
          rw [memberships_front hl h]
          omega
        · rw [Fetch_expired_live n1 n2 hl h1 (by simpa using h2)]
          show ((key, CacheValue.res r) :: _ : List _).countP _ ≤ _
          rw [List.countP_cons, memberships_front hl h]
      · rw [Fetch_live n1 n2 hl (by simpa using h1)]
        show ((key, CacheValue.res r) :: _ : List _).countP _ ≤ _
        rw [List.countP_cons, memberships_front hl h]

theorem memberships_setResponse_le (c : cache) (key : String)
    (response : DiscoveryResponse) (now h : Nat) :
    ((c.SetResponse key response now).2.1).memberships h ≤ c.memberships h := by
  rcases hl : c.lru.lookup key with _ | v
  · rw [SetResponse_of_lookup_none response now hl]
    obtain ⟨rest, h1, h2, -⟩ := LRU.add_of_lookup_none
      (v := .res (Resource.mk (some response) [] (c.getExpirationTime now))) hl
    show ((c.lru.add key _).1).items.countP _ ≤ _
    rw [h1]
    show ((key, _) :: rest : List _).countP _ ≤ _
    rw [List.countP_cons]
    have hsub := h2.countP_le (entryHas h)
    have he : entryHas h (key, CacheValue.res (Resource.mk (some response) []
        (c.getExpirationTime now))) = false := by simp [entryHas_res]
    rw [he]
    unfold memberships
    simpa using hsub
  · cases v with
    | corrupt t =>
      rw [SetResponse_of_corrupt response now hl]
      show ((key, CacheValue.corrupt t) :: _ : List _).countP _ ≤ _
      rw [List.countP_cons]
      unfold memberships
      rw [(LRU.perm_front hl).countP_eq, List.countP_cons]
    | res r =>
      rw [SetResponse_of_lookup_res response now hl]
      show ((key, CacheValue.res _) :: _ : List _).countP _ ≤ _
      rw [List.countP_cons, memberships_front hl h]
      have he : entryHas h (key, CacheValue.res (Resource.mk (some response) r.Requests
          (c.getExpirationTime now))) = entryHas h (key, CacheValue.res r) := by
        simp [entryHas_res]
      rw [he]

theorem memberships_addRequest_le (c : cache) (key : String) (req now h : Nat) :
    ((c.AddRequest key req now).2.1).memberships h ≤
      c.memberships h + (if h = req then 1 else 0) := by
  rcases hl : c.lru.lookup key with _ | v
  · rw [AddRequest_of_lookup_none req now hl]
    obtain ⟨rest, h1, h2, -⟩ := LRU.add_of_lookup_none
      (v := .res (Resource.mk none [req] (c.getExpirationTime now))) hl
    show ((c.lru.add key _).1).items.countP _ ≤ _
    rw [h1]
    show ((key, _) :: rest : List _).countP _ ≤ _
    rw [List.countP_cons]
    have hsub := h2.countP_le (entryHas h)
    unfold memberships
    by_cases hr : h = req
    · subst hr
      have he : entryHas h (key, CacheValue.res (Resource.mk none [h]
          (c.getExpirationTime now))) = true := by simp [entryHas_res]
      rw [he]
      simp
      omega
    · have he : entryHas h (key, CacheValue.res (Resource.mk none [req]
          (c.getExpirationTime now))) = false := by simp [entryHas_res]; omega
      rw [he]
      simp [hr]
      omega
  · cases v with
    | corrupt t =>
      rw [AddRequest_of_corrupt req now hl]
      show ((key, CacheValue.corrupt t) :: _ : List _).countP _ ≤ _
      rw [List.countP_cons]
      unfold memberships
      rw [(LRU.perm_front hl).countP_eq, List.countP_cons]
      omega
    | res r =>
      rw [AddRequest_of_lookup_res req now hl]
      show ((key, CacheValue.res _) :: _ : List _).countP _ ≤ _
      rw [List.countP_cons, memberships_front hl h]
      by_cases hr : h = req
      · subst hr
        have he : entryHas h (key, CacheValue.res (Resource.mk r.Resp
            (r.Requests.insert h) r.ExpirationTime)) = true := by
          simp [entryHas_res, List.mem_insert_iff]
        rw [he]
        simp
      · have he : entryHas h (key, CacheValue.res (Resource.mk r.Resp
            (r.Requests.insert req) r.ExpirationTime)) =
            entryHas h (key, CacheValue.res r) := by
          simp [entryHas_res, List.mem_insert_iff, hr]
        rw [he]
        simp [hr]

theorem memberships_deleteRequest_le (c : cache) (key : String) (req h : Nat) :
    ((c.DeleteRequest key req).2.1).memberships h ≤ c.memberships h := by
  rcases hl : c.lru.lookup key with _ | v
  · rw [DeleteRequest_of_lookup_none req hl]
  · cases v with
    | corrupt t =>
      rw [DeleteRequest_of_corrupt req hl]
      show ((key, CacheValue.corrupt t) :: _ : List _).countP _ ≤ _
      rw [List.countP_cons]
      unfold memberships
      rw [(LRU.perm_front hl).countP_eq, List.countP_cons]
    | res r =>
      rw [DeleteRequest_of_lookup_res req hl]
      show ((key, CacheValue.res _) :: _ : List _).countP _ ≤ _
      rw [List.countP_cons, memberships_front hl h]
      have hle : (if entryHas h (key, CacheValue.res (Resource.mk r.Resp
          (r.Requests.filter (fun x => !(x == req))) r.ExpirationTime)) then 1 else 0) ≤
          (if entryHas h (key, CacheValue.res r) then 1 else 0) := by
        by_cases hin : h ∈ r.Requests.filter (fun x => !(x == req))
        · have ho := (List.mem_filter.1 hin).1
          simp [entryHas_res, hin, ho]
        · simp [entryHas_res, hin]
      omega

/-- resNodup is preserved by every cache operation; proved via the pointwise
add lemma and the explicit front shapes. -/
theorem resNodup_fetch {c : cache} (hc : c.resNodup) (key : String) (n1 n2 : Nat) :
    ((c.Fetch key n1 n2).2.1).resNodup := by
  have hErase : ∀ kv ∈ c.lru.items.eraseP (fun p => p.1 == key), entryRes kv :=
    fun kv hkv => hc kv ((List.eraseP_sublist _).mem hkv)
  rcases hl : c.lru.lookup key with _ | v
  · rw [Fetch_of_lookup_none n1 n2 hl]
    exact hc
  · obtain ⟨r, rfl, hnd⟩ := lookup_resNodup hc hl
    by_cases h1 : r.isExpired n1
    · by_cases h2 : r.isExpired n2
      · rw [Fetch_expired_expired n1 n2 hl h1 h2]
        exact hErase
      · rw [Fetch_expired_live n1 n2 hl h1 (by simpa using h2)]
        intro kv hkv
        rcases List.mem_cons.1 hkv with h | h
        · exact ⟨r, by rw [h], hnd⟩
        · exact hErase kv h
    · rw [Fetch_live n1 n2 hl (by simpa using h1)]
      intro kv hkv
      rcases List.mem_cons.1 hkv with h | h
      · exact ⟨r, by rw [h], hnd⟩
      · exact hErase kv h

theorem resNodup_setResponse {c : cache} (hc : c.resNodup) (key : String)
    (response : DiscoveryResponse) (now : Nat) :
    ((c.SetResponse key response now).2.1).resNodup := by
  have hErase : ∀ kv ∈ c.lru.items.eraseP (fun p => p.1 == key), entryRes kv :=
    fun kv hkv => hc kv ((List.eraseP_sublist _).mem hkv)
  rcases hl : c.lru.lookup key with _ | v
  · rw [SetResponse_of_lookup_none response now hl]
    exact (LRU.add_pred entryRes hc ⟨_, rfl, List.nodup_nil⟩).1
  · obtain ⟨r, rfl, hnd⟩ := lookup_resNodup hc hl
    rw [SetResponse_of_lookup_res response now hl]
    intro kv hkv
    rcases List.mem_cons.1 hkv with h | h
    · exact ⟨Resource.mk (some response) r.Requests (c.getExpirationTime now), by rw [h], hnd⟩
    · exact hErase kv h

theorem resNodup_addRequest {c : cache} (hc : c.resNodup) (key : String) (req now : Nat) :
    ((c.AddRequest key req now).2.1).resNodup := by
  have hErase : ∀ kv ∈ c.lru.items.eraseP (fun p => p.1 == key), entryRes kv :=
    fun kv hkv => hc kv ((List.eraseP_sublist _).mem hkv)
  rcases hl : c.lru.lookup key with _ | v
  · rw [AddRequest_of_lookup_none req now hl]
    exact (LRU.add_pred entryRes hc ⟨_, rfl, List.nodup_singleton req⟩).1
  · obtain ⟨r, rfl, hnd⟩ := lookup_resNodup hc hl
    rw [AddRequest_of_lookup_res req now hl]
    intro kv hkv
    rcases List.mem_cons.1 hkv with h | h
    · exact ⟨Resource.mk r.Resp (r.Requests.insert req) r.ExpirationTime, by rw [h],
        hnd.insert⟩
    · exact hErase kv h

theorem resNodup_deleteRequest {c : cache} (hc : c.resNodup) (key : String) (req : Nat) :
    ((c.DeleteRequest key req).2.1).resNodup := by
  have hErase : ∀ kv ∈ c.lru.items.eraseP (fun p => p.1 == key), entryRes kv :=
    fun kv hkv => hc kv ((List.eraseP_sublist _).mem hkv)
  rcases hl : c.lru.lookup key with _ | v
  · rw [DeleteRequest_of_lookup_none req hl]
    exact hc
  · obtain ⟨r, rfl, hnd⟩ := lookup_resNodup hc hl
    rw [DeleteRequest_of_lookup_res req hl]
    intro kv hkv
    rcases List.mem_cons.1 hkv with h | h
    · exact ⟨Resource.mk r.Resp (r.Requests.filter (fun x => !(x == req))) r.ExpirationTime,
        by rw [h], hnd.filter _⟩
    · exact hErase kv h

end cache

namespace LRU

/-- Erasing by key at a front-positioned matching pair drops just that pair. -/
theorem eraseP_key_cons (key : String) (v : CacheValue)
    (rest : List (String × CacheValue)) :
    ((key, v) :: rest).eraseP (fun p => p.1 == key) = rest := by
  simp [List.eraseP_cons]

/-- Lookup determined by an explicit front-shaped item list. -/
theorem lookup_of_items_front {c : LRU} {key : String} {v : CacheValue}
    {rest : List (String × CacheValue)} (h : c.items = (key, v) :: rest) :
    c.lookup key = some v := by
  unfold lookup
  rw [h]
  simp [List.find?_cons_of_pos _ (by simp : ((key, v).1 == key) = true)]

end LRU

/-!
The orchestrator fan-out invariant.
-/

namespace orchestrator

theorem fanoutOne_cache (s : orchestrator) (key : String) (resp : DiscoveryResponse)
    (h : Nat) : (s.fanoutOne key resp h).cache = (s.cache.DeleteRequest key h).2.1 := by
  unfold fanoutOne
  cases hf : s.channels.find? (fun e => e.1 == h) with
  | none => rfl
  | some e =>
    rcases e with ⟨h', key', slot⟩
    cases slot <;> rfl

theorem fanoutOne_nextHandle (s : orchestrator) (key : String) (resp : DiscoveryResponse)
    (h : Nat) : (s.fanoutOne key resp h).nextHandle = s.nextHandle := by
  unfold fanoutOne
  cases hf : s.channels.find? (fun e => e.1 == h) with
  | none => rfl
  | some e =>
    rcases e with ⟨h', key', slot⟩
    cases slot <;> rfl

theorem fanoutOne_cached (s : orchestrator) (key : String) (resp : DiscoveryResponse)
    (h : Nat) : (s.fanoutOne key resp h).cachedDeliveries = s.cachedDeliveries := by
  unfold fanoutOne
  cases hf : s.channels.find? (fun e => e.1 == h) with
  | none => rfl
  | some e =>
    rcases e with ⟨h', key', slot⟩
    cases slot <;> rfl

theorem fanoutOne_fanlog (s : orchestrator) (key : String) (resp : DiscoveryResponse)
    (h : Nat) :
    (s.fanoutOne key resp h).fanoutDeliveries = s.fanoutDeliveries ∨
    (s.fanoutOne key resp h).fanoutDeliveries = s.fanoutDeliveries ++ [(h, resp)] := by
  unfold fanoutOne
  cases hf : s.channels.find? (fun e => e.1 == h) with
  | none => exact Or.inl rfl
  | some e =>
    rcases e with ⟨h', key', slot⟩
    cases slot
    · exact Or.inr rfl
    · exact Or.inl rfl

/-- Count of one handle's entries in a delivery log extended by one delivery. -/
theorem countP_log_append (l : List (Nat × DiscoveryResponse)) (h h0 : Nat)
    (resp : DiscoveryResponse) :
    (l ++ [(h, resp)]).countP (fun e => e.1 == h0) =
      l.countP (fun e => e.1 == h0) + (if h = h0 then 1 else 0) := by
  rw [List.countP_append]
  by_cases he : h = h0 <;> simp [List.countP_cons, he]

theorem fanoutOne_fan_le (s : orchestrator) (key : String) (resp : DiscoveryResponse)
    (h h0 : Nat) :
    (s.fanoutOne key resp h).countFanout h0 ≤
      s.countFanout h0 + (if h = h0 then 1 else 0) := by
  rcases fanoutOne_fanlog s key resp h with hl | hl <;>
    unfold countFanout <;> rw [hl]
  · omega
  · rw [countP_log_append]

theorem fanoutOne_fan_ne (s : orchestrator) (key : String) (resp : DiscoveryResponse)
    (h h0 : Nat) (hne : h ≠ h0) :
    (s.fanoutOne key resp h).countFanout h0 = s.countFanout h0 := by
  rcases fanoutOne_fanlog s key resp h with hl | hl <;>
    unfold countFanout <;> rw [hl]
  rw [countP_log_append]
  simp [hne]

/-- The fan-out loop preserves the orchestrator invariant, given that every
handle it will visit is registered in the (front-positioned) entry of the key
being fanned out. -/
theorem fanout_preserves (key : String) (resp : DiscoveryResponse) :
    ∀ (l : List Nat) (s : orchestrator) (r : Resource)
      (rest : List (String × CacheValue)),
    s.cache.lru.items = (key, .res r) :: rest →
    l.Nodup →
    (∀ h ∈ l, h ∈ r.Requests) →
    r.Requests.Nodup →
    (∀ kv ∈ rest, entryRes kv) →
    (∀ h, s.cache.memberships h + s.countFanout h ≤ 1) →
    (∀ h, s.countCached h ≤ 1) →
    (∀ h, s.nextHandle ≤ h →
      s.cache.memberships h = 0 ∧ s.countFanout h = 0 ∧ s.countCached h = 0) →
    (s.fanout key resp l).inv := by
  intro l
  induction l with
  | nil =>
    intro s r rest hitems hnd hmem hrnd hrest hsum hcached hfresh
    show s.inv
    refine ⟨hsum, hcached, hfresh, ?_⟩
    intro kv hkv
    rw [hitems] at hkv
    rcases List.mem_cons.1 hkv with h | h
    · exact ⟨r, by rw [h], hrnd⟩
    · exact hrest kv h
  | cons h t ih =>
    intro s r rest hitems hnd hmem hrnd hrest hsum hcached hfresh
    have hlk : s.cache.lru.lookup key = some (.res r) := LRU.lookup_of_items_front hitems
    have hhr : h ∈ r.Requests := hmem h (List.mem_cons_self h t)
    -- the step state
    set s1 := s.fanoutOne key resp h with hs1
    have hc1 : s1.cache = (s.cache.DeleteRequest key h).2.1 := fanoutOne_cache s key resp h
    have hitems1 : s1.cache.lru.items =
        (key, .res (Resource.mk r.Resp (r.Requests.filter (fun x => !(x == h)))
          r.ExpirationTime)) :: rest := by
      rw [hc1, cache.DeleteRequest_of_lookup_res h hlk]
      show (_ :: s.cache.lru.items.eraseP (fun p => p.1 == key) : List _) = _
      rw [hitems, LRU.eraseP_key_cons]
    -- counting equations for the old state
    have hmemEq : ∀ h0, s.cache.memberships h0 =
        rest.countP (entryHas h0) + (if entryHas h0 (key, CacheValue.res r) then 1 else 0) := by
      intro h0
      unfold cache.memberships
      rw [hitems, List.countP_cons]
    have hmemEq1 : ∀ h0, s1.cache.memberships h0 =
        rest.countP (entryHas h0) +
          (if entryHas h0 (key, CacheValue.res (Resource.mk r.Resp
            (r.Requests.filter (fun x => !(x == h))) r.ExpirationTime)) then 1 else 0) := by
      intro h0
      unfold cache.memberships
      rw [hitems1, List.countP_cons]
    have hEHh : entryHas h (key, CacheValue.res r) = true := by
      simp [cache.entryHas_res, hhr]
    have hzero : rest.countP (entryHas h) = 0 ∧ s.countFanout h = 0 := by
      have := hsum h
      rw [hmemEq h, hEHh] at this
      simp at this
      omega
    have hfree : h < s.nextHandle := by
      by_contra hge
      have := (hfresh h (by omega)).1
      rw [hmemEq h, hEHh] at this
      simp at this
    -- apply the induction hypothesis to the step state
    show (s1.fanout key resp t).inv
    refine ih s1 (Resource.mk r.Resp (r.Requests.filter (fun x => !(x == h)))
      r.ExpirationTime) rest hitems1 (List.Nodup.of_cons hnd) ?_ (hrnd.filter _) hrest
      ?_ ?_ ?_
    · intro h' hh'
      have hne : h' ≠ h := by
        intro he
        rw [he] at hh'
        exact (List.nodup_cons.1 hnd).1 hh'
      exact List.mem_filter.2 ⟨hmem h' (List.mem_cons_of_mem h hh'), by simp [hne]⟩
    · intro h0
      by_cases he : h0 = h
      · subst he
        have hEH1 : entryHas h0 (key, CacheValue.res (Resource.mk r.Resp
            (r.Requests.filter (fun x => !(x == h0))) r.ExpirationTime)) = false := by
          simp [cache.entryHas_res, List.mem_filter]
        rw [hmemEq1 h0, hEH1]
        simp
        have hfl := fanoutOne_fan_le s key resp h0 h0
        rw [← hs1] at hfl
        simp at hfl
        omega
      · have hmf : (h0 ∈ r.Requests.filter (fun x => !(x == h))) ↔ h0 ∈ r.Requests := by
          rw [List.mem_filter]
          simp [he]
        have hEH1 : entryHas h0 (key, CacheValue.res (Resource.mk r.Resp
            (r.Requests.filter (fun x => !(x == h))) r.ExpirationTime)) =
            entryHas h0 (key, CacheValue.res r) := by
          simp [cache.entryHas_res, hmf]
        have hfl := fanoutOne_fan_ne s key resp h h0 (Ne.symm he)
        rw [← hs1] at hfl
        rw [hmemEq1 h0, hEH1, hfl]
        have := hsum h0
        rw [hmemEq h0] at this
        omega
    · intro h0
      have : s1.countCached h0 = s.countCached h0 := by
        unfold countCached
        rw [fanoutOne_cached]
      rw [this]
      exact hcached h0
    · intro h0 hge
      rw [fanoutOne_nextHandle] at hge
      obtain ⟨hm0, hf0, hc0⟩ := hfresh h0 hge
      have hne : h ≠ h0 := by omega
      have hEH0 : entryHas h0 (key, CacheValue.res r) = false := by
        rw [hmemEq h0] at hm0
        by_cases hb : entryHas h0 (key, CacheValue.res r) = true
        · rw [hb] at hm0
          simp at hm0
        · simpa using hb
      have hnin : h0 ∉ r.Requests := by
        rw [cache.entryHas_res] at hEH0
        simpa using hEH0
      refine ⟨?_, ?_, ?_⟩
      · have hEH1 : entryHas h0 (key, CacheValue.res (Resource.mk r.Resp
            (r.Requests.filter (fun x => !(x == h))) r.ExpirationTime)) = false := by
          have hmf : (h0 ∈ r.Requests.filter (fun x => !(x == h))) = False := by
            simp [List.mem_filter]
            intro hmem0
            exact absurd hmem0 hnin
          simp [cache.entryHas_res, hmf]
        rw [hmemEq1 h0, hEH1]
        rw [hmemEq h0, hEH0] at hm0
        simpa using hm0
      · rw [fanoutOne_fan_ne s key resp h h0 hne]
        exact hf0
      · unfold countCached
        rw [fanoutOne_cached]
        exact hc0

theorem createWatch_fields (s : orchestrator) (key v : String) :
    (s.createWatch key v).cache =
      (((s.cache.AddRequest key s.nextHandle 0).2.1).Fetch key 0 0).2.1 ∧
    (s.createWatch key v).nextHandle = s.nextHandle + 1 ∧
    (s.createWatch key v).fanoutDeliveries = s.fanoutDeliveries ∧
    ((s.createWatch key v).cachedDeliveries = s.cachedDeliveries ∨
      ∃ resp, (s.createWatch key v).cachedDeliveries =
        s.cachedDeliveries ++ [(s.nextHandle, resp)]) := by
  unfold createWatch
  cases cachedDelivery (((s.cache.AddRequest key s.nextHandle 0).2.1).Fetch key 0 0).1 v with
  | some resp => exact ⟨rfl, rfl, rfl, Or.inr ⟨resp, rfl⟩⟩
  | none => exact ⟨rfl, rfl, rfl, Or.inl rfl⟩

theorem createWatch_inv {s : orchestrator} (hinv : s.inv) (key v : String) :
    (s.createWatch key v).inv := by
  obtain ⟨hsum, hcached, hfresh, hnd⟩ := hinv
  obtain ⟨hfc, hfn, hff, hfd⟩ := createWatch_fields s key v
  have hmem12 : ∀ h0,
      ((((s.cache.AddRequest key s.nextHandle 0).2.1).Fetch key 0 0).2.1).memberships h0 ≤
        s.cache.memberships h0 + (if h0 = s.nextHandle then 1 else 0) :=
    fun h0 => le_trans (cache.memberships_fetch_le _ key 0 0 h0)
      (cache.memberships_addRequest_le s.cache key s.nextHandle 0 h0)
  have hnd2 : ((((s.cache.AddRequest key s.nextHandle 0).2.1).Fetch key 0 0).2.1).resNodup :=
    cache.resNodup_fetch (cache.resNodup_addRequest hnd key s.nextHandle 0) key 0 0
  have hfanEq : ∀ h0, (s.createWatch key v).countFanout h0 = s.countFanout h0 := by
    intro h0
    unfold countFanout
    rw [hff]
  have hcachedLe : ∀ h0, (s.createWatch key v).countCached h0 ≤
      s.countCached h0 + (if s.nextHandle = h0 then 1 else 0) := by
    intro h0
    unfold countCached
    rcases hfd with hfd | ⟨resp, hfd⟩ <;> rw [hfd]
    · omega
    · rw [countP_log_append]
  have hcachedNe : ∀ h0, s.nextHandle ≠ h0 →
      (s.createWatch key v).countCached h0 = s.countCached h0 := by
    intro h0 hne
    unfold countCached
    rcases hfd with hfd | ⟨resp, hfd⟩ <;> rw [hfd]
    rw [countP_log_append]
    simp [hne]
  refine ⟨?_, ?_, ?_, ?_⟩
  · intro h0
    rw [hfc, hfanEq h0]
    have hm := hmem12 h0
    by_cases he : h0 = s.nextHandle
    · subst he
      obtain ⟨hm0, hf0, -⟩ := hfresh s.nextHandle (le_refl s.nextHandle)
      simp at hm
      omega
    · simp [he] at hm
      have := hsum h0
      omega
  · intro h0
    by_cases he : s.nextHandle = h0
    · have hle := hcachedLe h0
      obtain ⟨-, -, hc0⟩ := hfresh h0 (by omega)
      rw [if_pos he] at hle
      omega
    · rw [hcachedNe h0 he]
      exact hcached h0
  · intro h0 hge
    rw [hfn] at hge
    obtain ⟨hm0, hf0, hc0⟩ := hfresh h0 (by omega)
    have hm := hmem12 h0
    have hne : ¬ (h0 = s.nextHandle) := by omega
    simp [hne] at hm
    refine ⟨?_, ?_, ?_⟩
    · rw [hfc]
      omega
    · rw [hfanEq h0]
      exact hf0
    · rw [hcachedNe h0 (by omega)]
      exact hc0
  · rw [hfc]
    exact hnd2

theorem fanout_nil (s : orchestrator) (key : String) (resp : DiscoveryResponse) :
    s.fanout key resp [] = s := rfl

theorem upstreamResponse_inv {s : orchestrator} (hinv : s.inv) (key : String)
    (resp : DiscoveryResponse) : (s.upstreamResponse key resp).inv := by
  obtain ⟨hsum, hcached, hfresh, hnd⟩ := hinv
  rcases hl : s.cache.lru.lookup key with _ | v
  · have hred : s.upstreamResponse key resp =
        { s with cache := (s.cache.SetResponse key resp 0).2.1 } := by
      unfold upstreamResponse
      rw [cache.SetResponse_of_lookup_none resp 0 hl]
      rfl
    rw [hred]
    have hmemle : ∀ h0,
        ((s.cache.SetResponse key resp 0).2.1).memberships h0 ≤ s.cache.memberships h0 :=
      fun h0 => cache.memberships_setResponse_le s.cache key resp 0 h0
    have hndS : ((s.cache.SetResponse key resp 0).2.1).resNodup :=
      cache.resNodup_setResponse hnd key resp 0
    refine ⟨?_, hcached, ?_, hndS⟩
    · intro h0
      have h1 := hsum h0
      have h2 := hmemle h0
      show (s.cache.SetResponse key resp 0).2.1.memberships h0 + s.countFanout h0 ≤ 1
      omega
    · intro h0 hge
      obtain ⟨hm0, hf0, hc0⟩ := hfresh h0 hge
      have h2 := hmemle h0
      refine ⟨?_, hf0, hc0⟩
      show (s.cache.SetResponse key resp 0).2.1.memberships h0 = 0
      omega
  · obtain ⟨r, rfl, hrnd⟩ := cache.lookup_resNodup hnd hl
    have hred : s.upstreamResponse key resp =
        orchestrator.fanout { s with cache := (s.cache.SetResponse key resp 0).2.1 }
          key resp r.Requests := by
      unfold upstreamResponse
      rw [cache.SetResponse_of_lookup_res resp 0 hl]
    rw [hred]
    have hitems0 : (s.cache.SetResponse key resp 0).2.1.lru.items =
        (key, CacheValue.res (Resource.mk (some resp) r.Requests
          (s.cache.getExpirationTime 0)))
          :: s.cache.lru.items.eraseP (fun p => p.1 == key) := by
      rw [cache.SetResponse_of_lookup_res resp 0 hl]
    have hmemeq : ∀ h0,
        (s.cache.SetResponse key resp 0).2.1.memberships h0 = s.cache.memberships h0 := by
      intro h0
      rw [cache.memberships_front hl h0]
      unfold cache.memberships
      rw [hitems0, List.countP_cons]
      have he : entryHas h0 (key, CacheValue.res (Resource.mk (some resp) r.Requests
          (s.cache.getExpirationTime 0))) = entryHas h0 (key, CacheValue.res r) := by
        simp [cache.entryHas_res]
      rw [he]
    refine fanout_preserves key resp r.Requests
      { s with cache := (s.cache.SetResponse key resp 0).2.1 }
      (Resource.mk (some resp) r.Requests (s.cache.getExpirationTime 0))
      (s.cache.lru.items.eraseP (fun p => p.1 == key))
      hitems0 hrnd (fun h0 hh0 => hh0) hrnd ?_ ?_ ?_ ?_
    · intro kv hkv
      exact hnd kv ((List.eraseP_sublist _).mem hkv)
    · intro h0
      show (s.cache.SetResponse key resp 0).2.1.memberships h0 + s.countFanout h0 ≤ 1
      rw [hmemeq h0]
      exact hsum h0
    · exact hcached
    · intro h0 hge
      obtain ⟨hm0, hf0, hc0⟩ := hfresh h0 hge
      refine ⟨?_, hf0, hc0⟩
      show (s.cache.SetResponse key resp 0).2.1.memberships h0 = 0
      rw [hmemeq h0]
      exact hm0

theorem consumerRead_inv {s : orchestrator} (hinv : s.inv) (h : Nat) :
    (s.consumerRead h).inv := hinv

theorem cancelWatch_inv {s : orchestrator} (hinv : s.inv) (h : Nat) :
    (s.cancelWatch h).inv := by
  obtain ⟨hsum, hcached, hfresh, hnd⟩ := hinv
  refine ⟨?_, hcached, ?_, ?_⟩
  · intro h0
    show ((s.cache.DeleteRequest
      (match s.channels.find? (fun e => e.1 == h) with
       | some e => e.2.1
       | none => "") h).2.1).memberships h0 + s.countFanout h0 ≤ 1
    have h1 := cache.memberships_deleteRequest_le s.cache
      (match s.channels.find? (fun e => e.1 == h) with
       | some e => e.2.1
       | none => "") h h0
    have h2 := hsum h0
    omega
  · intro h0 hge
    obtain ⟨hm0, hf0, hc0⟩ := hfresh h0 hge
    refine ⟨?_, hf0, hc0⟩
    show ((s.cache.DeleteRequest
      (match s.channels.find? (fun e => e.1 == h) with
       | some e => e.2.1
       | none => "") h).2.1).memberships h0 = 0
    have h1 := cache.memberships_deleteRequest_le s.cache
      (match s.channels.find? (fun e => e.1 == h) with
       | some e => e.2.1
       | none => "") h h0
    omega
  · exact cache.resNodup_deleteRequest hnd
      (match s.channels.find? (fun e => e.1 == h) with
       | some e => e.2.1
       | none => "") h

theorem stepEvent_inv {s : orchestrator} (hinv : s.inv) (e : OrchEvent) :
    (s.stepEvent e).inv := by
  cases e with
  | createWatch key v => exact createWatch_inv hinv key v
  | upstreamResponse key resp => exact upstreamResponse_inv hinv key resp
  | consumerRead h => exact consumerRead_inv hinv h
  | cancelWatch h => exact cancelWatch_inv hinv h

theorem inv_init : orchInit.inv := by
  refine ⟨?_, ?_, ?_, ?_⟩ <;> intro h <;> simp [orchInit, cache.memberships, countFanout,
    countCached, cache.resNodup, inv]

theorem runEvents_inv (events : List OrchEvent) : (orchInit.runEvents events).inv := by
  suffices hgen : ∀ (s : orchestrator), s.inv → (s.runEvents events).inv from
    hgen orchInit inv_init
  induction events with
  | nil => exact fun s hs => hs
  | cons e es ih => exact fun s hs => ih _ (stepEvent_inv hs e)

end orchestrator

/-- C2 counterexample: in the TestCachedResponse scenario — preload the cache,
create a watch with an older version, read the immediate cached delivery, then
push a newer upstream response — the same watch's channel receives two
responses over its lifetime: one cached delivery and one fan-out delivery. -/
theorem createWatch_two_deliveries_cex :
    (orchInit.runEvents cachedResponseEvents).countDeliveries 0 = 2 ∧
    ¬ ((orchInit.runEvents cachedResponseEvents).countDeliveries 0 ≤ 1) ∧
    (orchInit.runEvents cachedResponseEvents).cachedDeliveries =
      [(0, DiscoveryResponse.mk "1" "lds resource")] ∧
    (orchInit.runEvents cachedResponseEvents).fanoutDeliveries =
      [(0, DiscoveryResponse.mk "2" "some other lds resource")] := by decide

/-- C2 (amended): over the whole lifetime of a watch, at most one response is
delivered on its channel by the immediate cached path (at creation) and at
most one by the fan-out path (the fan-out removes the handle from the cache's
request set upon processing it), so at most two in total — not one, as
TestCachedResponse observes both. -/
theorem watch_delivery_bound (events : List OrchEvent) (h : Nat) :
    (orchInit.runEvents events).countCached h ≤ 1 ∧
    (orchInit.runEvents events).countFanout h ≤ 1 ∧
    (orchInit.runEvents events).countDeliveries h ≤ 2 := by
  obtain ⟨hsum, hcached, -, -⟩ := orchestrator.runEvents_inv events
  have h1 := hsum h
  have h2 := hcached h
  refine ⟨h2, by omega, ?_⟩
  show (orchInit.runEvents events).countCached h +
    (orchInit.runEvents events).countFanout h ≤ 2
  omega

/-- C2 witness: the delivery bounds applied to the TestCachedResponse event
sequence and its watch handle. -/
theorem watch_delivery_bound_witness :
    (orchInit.runEvents cachedResponseEvents).countCached 0 ≤ 1 ∧
    (orchInit.runEvents cachedResponseEvents).countFanout 0 ≤ 1 ∧
    (orchInit.runEvents cachedResponseEvents).countDeliveries 0 ≤ 2 :=
  watch_delivery_bound cachedResponseEvents 0

end XdsRelay
